import Mathlib

/-!
Verification of the shift-lifecycle and payroll core of the Shift Management
System (`src/app.py`) against its natural-language specification.

Shallow embedding conventions:
- an HH:MM wall-clock time is a `TimeOfDay` (hour, minute), well-formed when
  hour < 24 and minute < 60; Python's `datetime.strptime(s, "%H:%M")`
  comparison of two such times on the same reference date is comparison of
  minutes since midnight;
- a calendar date is an integer day number; an instant is
  `date * 1440 + minutesOfDay`;
- money and hours are exact rationals;
- a Python dict field that may be absent, present-as-null, or present with a
  value is `Option (Option α)`: `none` = key absent, `some none` = null,
  `some (some v)` = value (this matters because `dict.get(k, default)`
  falls back only when the key is absent, not when it is null);
- a computation that would raise in Python returns `none` / `Except.error`.
-/

structure TimeOfDay where
  hour : Nat
  minute : Nat
deriving DecidableEq

/-- Minutes since midnight, the quantity Python compares when two `%H:%M`
parses on the same reference date are compared. -/
def TimeOfDay.toMinutes (t : TimeOfDay) : Nat := 60 * t.hour + t.minute

/-- A well-formed HH:MM time of day. -/
def TimeOfDay.wellFormed (t : TimeOfDay) : Prop := t.hour < 24 ∧ t.minute < 60

instance (t : TimeOfDay) : Decidable t.wellFormed := by
  unfold TimeOfDay.wellFormed; infer_instance

/-- Embeds `get_shift_duration` (src/app.py lines 117-125): parse both
arguments as times of day; if `end < start` (strictly), add one day to the
end before subtracting; return hours as `total_seconds() / 3600`. -/
def get_shift_duration (s e : TimeOfDay) : ℚ :=
  if e.toMinutes < s.toMinutes then
    (((e.toMinutes : ℚ) + 1440) - (s.toMinutes : ℚ)) / 60
  else
    ((e.toMinutes : ℚ) - (s.toMinutes : ℚ)) / 60

inductive ShiftStatus where
  | pending
  | accepted
  | declined
  | approved
deriving DecidableEq

/-- A shift record as stored in `shifts.json` (see src/app.py, records built
at lines 895-917, 1026-1031 and 1313-1327). `actual_start` / `actual_end`
use the absent / null / value encoding `Option (Option TimeOfDay)`;
`manual_amount` and `description` are keys that are absent on regular
shifts, so plain `Option`. The date is an integer day number. -/
structure Shift where
  date : ℤ
  shift_type : String
  planned_start : TimeOfDay
  planned_end : TimeOfDay
  assigned_employees : List String
  assigned_admin : Option String
  status : ShiftStatus
  approved : Bool
  actual_start : Option (Option TimeOfDay)
  actual_end : Option (Option TimeOfDay)
  manual_amount : Option ℚ
  description : Option String
deriving DecidableEq

/-- Embeds the per-shift end-instant computation of the downtime check
(src/app.py lines 868-872): combine the shift's date with its planned end
time, and add one day when the end is numerically at or before the planned
start (`end_dt <= start_dt`). Instants are measured in minutes. -/
def trueEndInstant (s : Shift) : ℤ :=
  s.date * 1440 + s.planned_end.toMinutes +
    (if s.planned_end.toMinutes ≤ s.planned_start.toMinutes then 1440 else 0)

/-- One step of the loop at src/app.py lines 867-875: fold a candidate end
instant into the running latest end, keeping it only when it is at or
before the proposed start `p`, and replacing the running value only when
strictly later (`end_dt > latest_end_dt`). -/
def updLatest (p : ℤ) (acc : Option ℤ) (e : ℤ) : Option ℤ :=
  if e ≤ p then
    match acc with
    | none => some e
    | some a => if a < e then some e else some a
  else acc

/-- Embeds the latest-prior-end computation of the downtime check
(src/app.py lines 860-875): among the shifts assigned to the employee
(any status), the latest true end instant that is at or before the
proposed start instant `p`, if any. -/
def latestPriorEnd (emp : String) (p : ℤ) (shifts : List Shift) : Option ℤ :=
  ((shifts.filter (fun s => emp ∈ s.assigned_employees)).map trueEndInstant).foldl
    (updLatest p) none

/-- Embeds the downtime acceptance decision of src/app.py lines 876-880:
the proposal at start instant `p` is accepted unless there is a latest
prior end with `hours_diff < 12`, i.e. a gap below 720 minutes. -/
def restSatisfied (emp : String) (shifts : List Shift) (p : ℤ) : Bool :=
  match latestPriorEnd emp p shifts with
  | none => true
  | some a => decide (720 ≤ p - a)

/-- The night shift 22:00 to 06:00 on day 0 assigned to employee "e", the
prior shift of the spec's rest-validation scenario, with a chosen status. -/
def nightShiftOn (st : ShiftStatus) : Shift :=
  { date := 0
    shift_type := "night"
    planned_start := ⟨22, 0⟩
    planned_end := ⟨6, 0⟩
    assigned_employees := ["e"]
    assigned_admin := none
    status := st
    approved := false
    actual_start := some none
    actual_end := some none
    manual_amount := none
    description := none }

/-- Embeds Python's `shift.get(key, planned)` on the absent / null / value
encoding, composed with the `strptime` parse inside `get_shift_duration`:
an absent key (`none`) falls back to the planned time, a null value
(`some none`) is passed through and makes the parse raise (`none`), and a
real value is used as is. -/
def resolveTime (field : Option (Option TimeOfDay)) (planned : TimeOfDay) :
    Option TimeOfDay :=
  match field with
  | none => some planned
  | some none => none
  | some (some t) => some t

/-- Embeds `calculate_pay` (src/app.py lines 127-137): approved manual
entries carrying a `manual_amount` key return the amount verbatim; other
approved shifts pay duration times rate on actual times with fallback to
planned; unapproved shifts pay 0. Returns `none` where Python would raise
(a null actual time reaching `strptime`). -/
def calculate_pay (sh : Shift) (hourly_rate : ℚ) : Option ℚ :=
  if sh.approved = true then
    if sh.shift_type = "manual_payroll" ∧ sh.manual_amount.isSome = true then
      sh.manual_amount
    else
      match resolveTime sh.actual_start sh.planned_start,
            resolveTime sh.actual_end sh.planned_end with
      | some s, some e => some (get_shift_duration s e * hourly_rate)
      | _, _ => none
  else some 0

inductive LineDetail where
  | manualEntry (description : String)
  | regular (planned_s planned_e : TimeOfDay)
      (actual_s actual_e : Option (Option TimeOfDay)) (hours : ℚ)
deriving DecidableEq

structure LineItem where
  date : ℤ
  detail : LineDetail
  pay : ℚ
deriving DecidableEq

/-- Embeds one iteration of the payroll loop in
`calculate_payroll_for_user` (src/app.py lines 152-196): a shift
contributes only when the user is among the assigned employees, the shift
is approved, and its date lies in the inclusive range; a manual entry
contributes 0 hours, its pay, and a line item carrying the description
(default "Manual Adjustment"); a regular shift contributes its duration on
actual-else-planned times and duration times rate. `none` is a Python
exception (null actual time). -/
def shiftContribution (username : String) (hourly_rate : ℚ)
    (start_date end_date : ℤ) (sh : Shift) : Option (ℚ × ℚ × List LineItem) :=
  if username ∈ sh.assigned_employees ∧ sh.approved = true ∧
      start_date ≤ sh.date ∧ sh.date ≤ end_date then
    match calculate_pay sh hourly_rate with
    | none => none
    | some pay =>
      if sh.shift_type = "manual_payroll" then
        some (0, pay,
          [⟨sh.date, LineDetail.manualEntry (sh.description.getD "Manual Adjustment"), pay⟩])
      else
        match resolveTime sh.actual_start sh.planned_start,
              resolveTime sh.actual_end sh.planned_end with
        | some s, some e =>
          some (get_shift_duration s e, pay,
            [⟨sh.date, LineDetail.regular sh.planned_start sh.planned_end
                sh.actual_start sh.actual_end (get_shift_duration s e), pay⟩])
        | _, _ => none
  else some (0, 0, [])

/-- Embeds `calculate_payroll_for_user` (src/app.py lines 139-198): running
sums of hours and pay plus the accumulated line items over the shift store,
`none` when Python would raise on some shift. -/
def calculate_payroll_for_user (username : String) (hourly_rate : ℚ)
    (start_date end_date : ℤ) : List Shift → Option (ℚ × ℚ × List LineItem)
  | [] => some (0, 0, [])
  | sh :: rest =>
    match shiftContribution username hourly_rate start_date end_date sh,
          calculate_payroll_for_user username hourly_rate start_date end_date rest with
    | some c, some r => some (c.1 + r.1, c.2.1 + r.2.1, c.2.2 ++ r.2.2)
    | _, _ => none

/-- An approved regular morning shift on day 5, worked by employee "w"
exactly as planned, used to instantiate the payroll theorems. -/
def regShiftW : Shift :=
  { date := 5
    shift_type := "morning"
    planned_start := ⟨6, 0⟩
    planned_end := ⟨14, 0⟩
    assigned_employees := ["w"]
    assigned_admin := none
    status := ShiftStatus.approved
    approved := true
    actual_start := some (some ⟨6, 0⟩)
    actual_end := some (some ⟨14, 0⟩)
    manual_amount := none
    description := none }

/-- A pending, unapproved late shift on day 5 for employee "w". -/
def pendingShiftW : Shift :=
  { date := 5
    shift_type := "late"
    planned_start := ⟨14, 0⟩
    planned_end := ⟨22, 0⟩
    assigned_employees := ["w"]
    assigned_admin := none
    status := ShiftStatus.pending
    approved := false
    actual_start := some none
    actual_end := some none
    manual_amount := none
    description := none }

/-- The total of the manual amounts of the shifts that qualify for payroll
for user `u` in the inclusive range: the sum the spec calls X. -/
def manualTotal (u : String) (d1 d2 : ℤ) (shifts : List Shift) : ℚ :=
  ((shifts.filter (fun t => u ∈ t.assigned_employees ∧ t.approved = true ∧
      d1 ≤ t.date ∧ t.date ≤ d2)).map (fun t => t.manual_amount.getD 0)).sum

/-- A manual payroll entry of 100 for employee "w" on day 3. -/
def manualEntry100 : Shift :=
  { date := 3
    shift_type := "manual_payroll"
    planned_start := ⟨0, 0⟩
    planned_end := ⟨0, 0⟩
    assigned_employees := ["w"]
    assigned_admin := some "admin1"
    status := ShiftStatus.approved
    approved := true
    actual_start := some (some ⟨0, 0⟩)
    actual_end := some (some ⟨0, 0⟩)
    manual_amount := some 100
    description := some "Bonus" }

/-- A manual payroll entry of 250 for employee "w" on day 4. -/
def manualEntry250 : Shift :=
  { date := 4
    shift_type := "manual_payroll"
    planned_start := ⟨0, 0⟩
    planned_end := ⟨0, 0⟩
    assigned_employees := ["w"]
    assigned_admin := some "admin1"
    status := ShiftStatus.approved
    approved := true
    actual_start := some (some ⟨0, 0⟩)
    actual_end := some (some ⟨0, 0⟩)
    manual_amount := some 250
    description := some "Adjustment" }

def isNonNull (field : Option (Option TimeOfDay)) : Bool :=
  match field with
  | some (some _) => true
  | _ => false

/-- The approved-record invariant (spec section 3): an approved shift
carries non-null actual start and end, or is a manual entry carrying a
non-null amount. -/
def shiftInvariantB (sh : Shift) : Bool :=
  !sh.approved ||
    ((isNonNull sh.actual_start && isNonNull sh.actual_end) ||
      (sh.shift_type == "manual_payroll" && sh.manual_amount.isSome))

/-- An approved regular shift whose actual keys are present but null,
which the payroll computation cannot process. -/
def nullActualShiftW : Shift :=
  { date := 5
    shift_type := "morning"
    planned_start := ⟨6, 0⟩
    planned_end := ⟨14, 0⟩
    assigned_employees := ["w"]
    assigned_admin := none
    status := ShiftStatus.approved
    approved := true
    actual_start := some none
    actual_end := some none
    manual_amount := none
    description := none }

inductive CreateError where
  | noEmployees
  | restViolation (violators : List String)
deriving DecidableEq

/-- Embeds the Create-Shift action of `admin_manage_shifts` (src/app.py
lines 856-921): with no selected employees the creation is refused; with a
downtime violator (less than 12 hours since the latest prior shift end at
the proposed planned start) the creation is refused; otherwise exactly one
new record is appended, whose approved flag and actual times are set from
the chosen initial status (an initial status of approved copies planned
times into actual times; any other status stores null actual times).
`createdShift` is the appended record (src/app.py lines 895-917). -/
def createdShift (date : ℤ) (stype : String) (ps pe : TimeOfDay)
    (emps : List String) (admin : Option String)
    (initStatus : ShiftStatus) : Shift :=
  { date := date
    shift_type := stype
    planned_start := ps
    planned_end := pe
    assigned_employees := emps
    assigned_admin := admin
    status := initStatus
    approved := decide (initStatus = ShiftStatus.approved)
    actual_start :=
      if initStatus = ShiftStatus.approved then some (some ps) else some none
    actual_end :=
      if initStatus = ShiftStatus.approved then some (some pe) else some none
    manual_amount := none
    description := none }

def admin_create_shift (store : List Shift) (date : ℤ) (stype : String)
    (ps pe : TimeOfDay) (emps : List String) (admin : Option String)
    (initStatus : ShiftStatus) : Except CreateError (List Shift) :=
  if emps.isEmpty then Except.error CreateError.noEmployees
  else if ! (emps.filter (fun u =>
      ! restSatisfied u store (date * 1440 + (ps.toMinutes : ℤ)))).isEmpty then
    Except.error (CreateError.restViolation (emps.filter (fun u =>
      ! restSatisfied u store (date * 1440 + (ps.toMinutes : ℤ)))))
  else
    Except.ok (store ++ [createdShift date stype ps pe emps admin initStatus])

/-- Embeds the employee accept/decline action (src/app.py lines 645-668):
only a pending non-manual shift assigned to the responding employee is
changed, and only its status field is changed. -/
def respondAction (emp : String) (accept : Bool) (sh : Shift) : Shift :=
  if sh.status = ShiftStatus.pending ∧ sh.shift_type ≠ "manual_payroll" ∧
      emp ∈ sh.assigned_employees then
    { sh with status := if accept then ShiftStatus.accepted else ShiftStatus.declined }
  else sh

/-- Embeds the admin approval action (src/app.py lines 972-1031): a pending
or accepted, not yet approved, non-manual shift gets `approved := true`,
its actual start/end set to the supplied times, and status approved. -/
def approveAction (aS aE : TimeOfDay) (sh : Shift) : Shift :=
  if (sh.status = ShiftStatus.accepted ∨ sh.status = ShiftStatus.pending) ∧
      sh.approved = false ∧ sh.shift_type ≠ "manual_payroll" then
    { sh with approved := true
              actual_start := some (some aS)
              actual_end := some (some aE)
              status := ShiftStatus.approved }
  else sh

/-- Applies `f` to the element at position `i`, the embedding of a
mutation of one record of the shift store keyed by its identifier. -/
def modifyAt (f : Shift → Shift) : List Shift → Nat → List Shift
  | [], _ => []
  | sh :: rest, 0 => f sh :: rest
  | sh :: rest, Nat.succ n => sh :: modifyAt f rest n

/-- Embeds `manual_add_payroll_entry` (src/app.py lines 1278-1331): with an
empty description or a zero amount nothing is added; otherwise a manual
payroll record is appended, directly approved, with the amount and
description stored and synthetic 00:00 times. -/
def manual_add_payroll_entry (store : List Shift) (date : ℤ)
    (emp admin : String) (amount : ℚ) (descr : String) : List Shift :=
  if descr = "" ∨ amount = 0 then store
  else store ++
    [{ date := date
       shift_type := "manual_payroll"
       planned_start := ⟨0, 0⟩
       planned_end := ⟨0, 0⟩
       assigned_employees := [emp]
       assigned_admin := some admin
       status := ShiftStatus.approved
       approved := true
       actual_start := some (some ⟨0, 0⟩)
       actual_end := some (some ⟨0, 0⟩)
       manual_amount := some amount
       description := some descr }]

/-- The shift stores reachable from the empty store through the mutating
operations of the application: shift creation, employee accept/decline,
admin approval, and manual payroll entry. -/
inductive Reachable : List Shift → Prop where
  | empty : Reachable []
  | create {store store' : List Shift} (date : ℤ) (stype : String)
      (ps pe : TimeOfDay) (emps : List String) (admin : Option String)
      (initStatus : ShiftStatus) :
      Reachable store →
      admin_create_shift store date stype ps pe emps admin initStatus =
        Except.ok store' →
      Reachable store'
  | respond {store : List Shift} (i : Nat) (emp : String) (accept : Bool) :
      Reachable store → Reachable (modifyAt (respondAction emp accept) store i)
  | approve {store : List Shift} (i : Nat) (aS aE : TimeOfDay) :
      Reachable store → Reachable (modifyAt (approveAction aS aE) store i)
  | manual {store : List Shift} (date : ℤ) (emp admin : String)
      (amount : ℚ) (descr : String) :
      Reachable store →
      Reachable (manual_add_payroll_entry store date emp admin amount descr)

/-- A user record, restricted to the fields the shift-type selection policy
reads (src/app.py lines 779-783). -/
structure User where
  username : String
  primary_shift : String
  secondary_shift : Option String
deriving DecidableEq

/-- Embeds the per-employee allowed set (src/app.py lines 780-783): the
primary shift, plus the secondary shift when the key holds a truthy value
other than the string "None" (Python truthiness also excludes the empty
string). -/
def allowedShiftSet (emp : User) : Finset String :=
  match emp.secondary_shift with
  | none => {emp.primary_shift}
  | some s => if s ≠ "" ∧ s ≠ "None" then {emp.primary_shift, s} else {emp.primary_shift}

/-- Embeds src/app.py line 785: despite the adjacent comment "Only allow
shift types that are in ALL selected employees' allowed shifts", the code
computes `set.union(*allowed_shift_sets)` — the union of the per-employee
allowed sets over the selected employees. -/
def available_shift_types (emps : List User) : Finset String :=
  (emps.map allowedShiftSet).foldl (fun a b => a ∪ b) ∅

/-- Modelled from the spec (section 4.3 selection policy, absent from the
code): the set of shift types every selected employee is individually
qualified for — the intersection across the selected employees of the
per-employee allowed sets. -/
def spec_allowed_shift_types (emps : List User) : Finset String :=
  match emps with
  | [] => ∅
  | e :: rest => rest.foldl (fun acc x => acc ∩ allowedShiftSet x) (allowedShiftSet e)

/-- An employee qualified only for the morning shift. -/
def empMorning : User :=
  { username := "empA", primary_shift := "morning", secondary_shift := none }

/-- An employee qualified only for the late shift. -/
def empLate : User :=
  { username := "empB", primary_shift := "late", secondary_shift := none }

theorem TimeOfDay.toMinutes_lt_1440 {t : TimeOfDay} (h : t.wellFormed) :
    t.toMinutes < 1440 := by
  obtain ⟨hh, hm⟩ := h
  unfold TimeOfDay.toMinutes
  omega

theorem TimeOfDay.toMinutes_injOn {s t : TimeOfDay}
    (hs : s.wellFormed) (ht : t.wellFormed)
    (h : s.toMinutes = t.toMinutes) : s = t := by
  cases s with
  | mk sh sm =>
    cases t with
    | mk th tm =>
      simp only [TimeOfDay.toMinutes] at h
      simp only [TimeOfDay.wellFormed] at hs ht
      simp only [TimeOfDay.mk.injEq]
      omega

/-- C3 counterexample: the claim says that for equal well-formed inputs
(`s = e`, e.g. both 06:00) the duration is 24.0 hours; the code's branch
condition is the strict `end < start`, so equal inputs take the
non-wrapping branch and the result is 0, not 24. -/
theorem C3_counterexample :
    get_shift_duration ⟨6, 0⟩ ⟨6, 0⟩ = 0 ∧
      ¬ get_shift_duration ⟨6, 0⟩ ⟨6, 0⟩ = 24 := by
  constructor
  · unfold get_shift_duration TimeOfDay.toMinutes
    norm_num
  · unfold get_shift_duration TimeOfDay.toMinutes
    norm_num

/-- C3 amended: `get_shift_duration` adds 24 hours to the end time only when
end is numerically strictly less than start; when start ≤ end (in particular
for equal inputs) it subtracts directly, so equal inputs yield 0.0 hours, and
for well-formed inputs the result is always strictly below 24. -/
theorem C3_amended_duration (s e : TimeOfDay)
    (hs : s.wellFormed) (he : e.wellFormed) :
    (e.toMinutes < s.toMinutes →
      get_shift_duration s e =
        (((e.toMinutes : ℚ) + 1440) - (s.toMinutes : ℚ)) / 60) ∧
    (s.toMinutes ≤ e.toMinutes →
      get_shift_duration s e = ((e.toMinutes : ℚ) - (s.toMinutes : ℚ)) / 60) ∧
    (s = e → get_shift_duration s e = 0) ∧
    get_shift_duration s e < 24 := by
  have hslt : s.toMinutes < 1440 := TimeOfDay.toMinutes_lt_1440 hs
  have helt : e.toMinutes < 1440 := TimeOfDay.toMinutes_lt_1440 he
  refine ⟨?_, ?_, ?_, ?_⟩
  · intro h
    unfold get_shift_duration
    rw [if_pos h]
  · intro h
    unfold get_shift_duration
    rw [if_neg (by omega)]
  · intro h
    subst h
    unfold get_shift_duration
    rw [if_neg (by omega)]
    ring
  · unfold get_shift_duration
    split
    · rw [div_lt_iff₀ (by norm_num)]
      have : (e.toMinutes : ℚ) < (s.toMinutes : ℚ) := by
        exact_mod_cast (by assumption : e.toMinutes < s.toMinutes)
      linarith
    · rw [div_lt_iff₀ (by norm_num)]
      have : (e.toMinutes : ℚ) < 1440 := by exact_mod_cast helt
      have : (0 : ℚ) ≤ (s.toMinutes : ℚ) := by positivity
      linarith

/-- C3 amended, witness: instantiated at s = e = 06:00 (well-formed), the
duration is 0 and below 24. -/
theorem C3_amended_duration_witness :
    get_shift_duration ⟨6, 0⟩ ⟨6, 0⟩ = 0 ∧ get_shift_duration ⟨6, 0⟩ ⟨6, 0⟩ < 24 := by
  have h := C3_amended_duration ⟨6, 0⟩ ⟨6, 0⟩ (by decide) (by decide)
  exact ⟨h.2.2.1 rfl, h.2.2.2⟩

/-- C9: for all well-formed HH:MM pairs the duration is nonnegative; for
distinct inputs it satisfies the wrap symmetry
`hoursBetween(s,e) = 24 - hoursBetween(e,s)`, and
`hoursBetween(22:00, 06:00) = 8`. -/
theorem C9_duration_wrap (s e : TimeOfDay)
    (hs : s.wellFormed) (he : e.wellFormed) :
    0 ≤ get_shift_duration s e ∧
    (s ≠ e → get_shift_duration s e = 24 - get_shift_duration e s) ∧
    get_shift_duration ⟨22, 0⟩ ⟨6, 0⟩ = 8 := by
  have hslt : s.toMinutes < 1440 := TimeOfDay.toMinutes_lt_1440 hs
  refine ⟨?_, ?_, ?_⟩
  · unfold get_shift_duration
    split
    · have h1 : (s.toMinutes : ℚ) < 1440 := by exact_mod_cast hslt
      have h2 : (0 : ℚ) ≤ (e.toMinutes : ℚ) := by positivity
      apply div_nonneg (by linarith) (by norm_num)
    · have h : s.toMinutes ≤ e.toMinutes := by omega
      have h1 : (s.toMinutes : ℚ) ≤ (e.toMinutes : ℚ) := by exact_mod_cast h
      apply div_nonneg (by linarith) (by norm_num)
  · intro hne
    have hmne : s.toMinutes ≠ e.toMinutes := fun h =>
      hne (TimeOfDay.toMinutes_injOn hs he h)
    unfold get_shift_duration
    rcases Nat.lt_or_ge e.toMinutes s.toMinutes with h | h
    · rw [if_pos h, if_neg (by omega)]
      ring
    · have h' : s.toMinutes < e.toMinutes := by omega
      rw [if_neg (by omega), if_pos h']
      ring
  · unfold get_shift_duration TimeOfDay.toMinutes
    norm_num

/-- C9 witness: instantiated at the spec's example pair 22:00 and 06:00. -/
theorem C9_duration_wrap_witness :
    0 ≤ get_shift_duration ⟨22, 0⟩ ⟨6, 0⟩ ∧
    get_shift_duration ⟨22, 0⟩ ⟨6, 0⟩ = 24 - get_shift_duration ⟨6, 0⟩ ⟨22, 0⟩ ∧
    get_shift_duration ⟨22, 0⟩ ⟨6, 0⟩ = 8 := by
  have h := C9_duration_wrap ⟨22, 0⟩ ⟨6, 0⟩ (by decide) (by decide)
  exact ⟨h.1, h.2.1 (by decide), h.2.2⟩

theorem updLatest_none_eq (p e : ℤ) :
    updLatest p none e = if e ≤ p then some e else none := by
  unfold updLatest
  split <;> rfl

theorem updLatest_some_eq (p a e : ℤ) :
    updLatest p (some a) e =
      if e ≤ p then (if a < e then some e else some a) else some a := by
  unfold updLatest
  split <;> rfl

theorem updLatest_eq_none_iff (p : ℤ) (acc : Option ℤ) (e : ℤ) :
    updLatest p acc e = none ↔ acc = none ∧ ¬ e ≤ p := by
  cases acc with
  | none =>
    rw [updLatest_none_eq]
    split <;> simp [*]
  | some a =>
    rw [updLatest_some_eq]
    constructor
    · intro hx
      split at hx
      · split at hx <;> simp at hx
      · simp at hx
    · rintro ⟨hx, _⟩
      simp at hx

theorem updLatest_eq_some (p : ℤ) (acc : Option ℤ) (e m : ℤ)
    (h : updLatest p acc e = some m) :
    (acc = some m ∨ (m = e ∧ e ≤ p)) ∧
    (∀ a, acc = some a → a ≤ m) ∧ (e ≤ p → e ≤ m) := by
  cases acc with
  | none =>
    rw [updLatest_none_eq] at h
    split at h
    · simp at h
      subst h
      exact ⟨Or.inr ⟨rfl, by assumption⟩, by simp, fun _ => le_refl _⟩
    · simp at h
  | some a =>
    rw [updLatest_some_eq] at h
    split at h
    · split at h
      · simp at h
        subst h
        exact ⟨Or.inr ⟨rfl, by assumption⟩, fun b hb => by simp at hb; omega,
          fun _ => le_refl _⟩
      · simp at h
        subst h
        exact ⟨Or.inl rfl, fun b hb => by simp at hb; omega, fun _ => by omega⟩
    · simp at h
      subst h
      exact ⟨Or.inl rfl, fun b hb => by simp at hb; omega,
        fun hx => absurd hx (by assumption)⟩

theorem foldl_updLatest_none_iff (p : ℤ) (l : List ℤ) :
    ∀ acc : Option ℤ, (l.foldl (updLatest p) acc = none ↔
      acc = none ∧ ∀ e ∈ l, ¬ e ≤ p) := by
  induction l with
  | nil => intro acc; simp
  | cons x xs ih =>
    intro acc
    simp only [List.foldl_cons, List.mem_cons]
    rw [ih, updLatest_eq_none_iff]
    constructor
    · rintro ⟨⟨h1, h2⟩, h3⟩
      exact ⟨h1, fun e he => he.elim (fun hx => hx ▸ h2) (h3 e)⟩
    · rintro ⟨h1, h2⟩
      exact ⟨⟨h1, h2 x (Or.inl rfl)⟩, fun e he => h2 e (Or.inr he)⟩

theorem foldl_updLatest_some (p : ℤ) (l : List ℤ) :
    ∀ acc : Option ℤ, ∀ m : ℤ, l.foldl (updLatest p) acc = some m →
      (acc = some m ∨ (m ∈ l ∧ m ≤ p)) ∧
      (∀ a, acc = some a → a ≤ m) ∧
      (∀ e ∈ l, e ≤ p → e ≤ m) := by
  induction l with
  | nil =>
    intro acc m h
    simp at h
    exact ⟨Or.inl h, fun a ha => by rw [h] at ha; simp at ha; omega, by simp⟩
  | cons x xs ih =>
    intro acc m h
    simp only [List.foldl_cons] at h
    obtain ⟨hmem, hacc, hall⟩ := ih (updLatest p acc x) m h
    refine ⟨?_, ?_, ?_⟩
    · rcases hmem with hm | ⟨hm1, hm2⟩
      · rcases (updLatest_eq_some p acc x m hm).1 with h1 | ⟨h1, h2⟩
        · exact Or.inl h1
        · exact Or.inr ⟨by simp [h1], h1 ▸ h2⟩
      · exact Or.inr ⟨List.mem_cons_of_mem x hm1, hm2⟩
    · intro a ha
      cases hq : updLatest p acc x with
      | none =>
        rw [(updLatest_eq_none_iff p acc x).mp hq |>.1] at ha
        simp at ha
      | some q =>
        exact le_trans ((updLatest_eq_some p acc x q hq).2.1 a ha) (hacc q hq)
    · intro e he hep
      rcases List.mem_cons.mp he with he1 | he2
      · subst he1
        cases hq : updLatest p acc e with
        | none =>
          exact absurd hep ((updLatest_eq_none_iff p acc e).mp hq).2
        | some q =>
          exact le_trans ((updLatest_eq_some p acc e q hq).2.2 hep) (hacc q hq)
      · exact hall e he2 hep

theorem mem_priorEnds_iff (emp : String) (shifts : List Shift) (x : ℤ) :
    (x ∈ (shifts.filter (fun s => emp ∈ s.assigned_employees)).map trueEndInstant) ↔
      ∃ s ∈ shifts, emp ∈ s.assigned_employees ∧ trueEndInstant s = x := by
  simp only [List.mem_map, List.mem_filter, decide_eq_true_eq]
  constructor
  · rintro ⟨s, ⟨hs1, hs2⟩, hs3⟩
    exact ⟨s, hs1, hs2, hs3⟩
  · rintro ⟨s, hs1, hs2, hs3⟩
    exact ⟨s, ⟨hs1, hs2⟩, hs3⟩

/-- C4: the downtime check accepts a proposed start instant `p` exactly when
either no shift of the employee has a true end instant at or before `p`, or
the latest such end instant is at least 12 hours (720 minutes) before `p`;
in the spec's scenario (prior shift day 0, 22:00 to 06:00, true end day 1
06:00) a new start at day 1 18:00 (12 h gap exactly) is accepted and a new
start at day 1 14:00 (8 h gap) is rejected. -/
theorem C4_rest_check (emp : String) (shifts : List Shift) (p : ℤ) :
    (restSatisfied emp shifts p = true ↔
      (∀ s ∈ shifts, emp ∈ s.assigned_employees → ¬ trueEndInstant s ≤ p) ∨
      (∃ m, (∃ s ∈ shifts, emp ∈ s.assigned_employees ∧ trueEndInstant s = m ∧ m ≤ p) ∧
            (∀ s ∈ shifts, emp ∈ s.assigned_employees →
              trueEndInstant s ≤ p → trueEndInstant s ≤ m) ∧
            720 ≤ p - m)) ∧
    restSatisfied "e" [nightShiftOn ShiftStatus.approved] (1 * 1440 + 18 * 60) = true ∧
    restSatisfied "e" [nightShiftOn ShiftStatus.approved] (1 * 1440 + 14 * 60) = false := by
  refine ⟨?_, by decide, by decide⟩
  unfold restSatisfied
  cases hl : latestPriorEnd emp p shifts with
  | none =>
    unfold latestPriorEnd at hl
    have hnone := (foldl_updLatest_none_iff p _ none).mp hl
    constructor
    · intro _
      left
      intro s hs hmem hle
      exact hnone.2 (trueEndInstant s)
        ((mem_priorEnds_iff emp shifts _).mpr ⟨s, hs, hmem, rfl⟩) hle
    · intro _
      rfl
  | some m =>
    unfold latestPriorEnd at hl
    obtain ⟨hmem, _, hall⟩ := foldl_updLatest_some p _ none m hl
    have hm : m ∈ (shifts.filter (fun s => emp ∈ s.assigned_employees)).map trueEndInstant ∧ m ≤ p := by
      rcases hmem with h1 | h1
      · simp at h1
      · exact h1
    obtain ⟨s0, hs0, hs0mem, hs0end⟩ := (mem_priorEnds_iff emp shifts m).mp hm.1
    simp only [decide_eq_true_eq]
    constructor
    · intro hgap
      right
      refine ⟨m, ⟨s0, hs0, hs0mem, hs0end, hm.2⟩, ?_, hgap⟩
      intro s hs hsm hsle
      exact hall (trueEndInstant s)
        ((mem_priorEnds_iff emp shifts _).mpr ⟨s, hs, hsm, rfl⟩) hsle
    · rintro (hno | ⟨m', ⟨s', hs1', hs2', hs3', hs4'⟩, hmax', hgap'⟩)
      · have hle : trueEndInstant s0 ≤ p := by rw [hs0end]; exact hm.2
        exact absurd hle (hno s0 hs0 hs0mem)
      · have h1 : m' ≤ m := by
          have := hall m' ((mem_priorEnds_iff emp shifts m').mpr
            ⟨s', hs1', hs2', hs3'⟩) hs4'
          exact this
        have h2 : m ≤ m' := by
          have := hmax' s0 hs0 hs0mem (hs0end ▸ hm.2)
          omega
        omega

/-- C2 counterexample: the claim says a declined shift never counts as the
latest prior shift and never causes a rest-period violation; in the code
the downtime loop has no status filter, so an employee whose only shift is
a declined night shift (day 0, 22:00 to 06:00, true end day 1 06:00) is
rejected for a proposal at day 1 14:00, while with no shifts at all the
same proposal is accepted. -/
theorem C2_counterexample :
    restSatisfied "e" [nightShiftOn ShiftStatus.declined] (1 * 1440 + 14 * 60) = false ∧
    restSatisfied "e" [] (1 * 1440 + 14 * 60) = true := by
  constructor <;> decide

/-- C2 amended: the rest-period check ignores shift status entirely — a
declined shift is included in the latest-prior-end lookup on the same
footing as any other shift, so uniformly rewriting every status (for
example to declined) never changes the outcome of the check. -/
theorem C2_amended_status_ignored (emp : String) (shifts : List Shift)
    (p : ℤ) (st : ShiftStatus) :
    restSatisfied emp (shifts.map (fun s => { s with status := st })) p =
      restSatisfied emp shifts p := by
  unfold restSatisfied latestPriorEnd
  have key : ((shifts.map (fun s => { s with status := st })).filter
      (fun s => emp ∈ s.assigned_employees)).map trueEndInstant =
      (shifts.filter (fun s => emp ∈ s.assigned_employees)).map trueEndInstant := by
    induction shifts with
    | nil => rfl
    | cons s rest ih =>
      simp only [List.map_cons, List.filter_cons]
      by_cases h : emp ∈ s.assigned_employees
      · simp [h, ih, trueEndInstant]
      · simp [h, ih]
  rw [key]

theorem shiftContribution_not_qualifying (u : String) (rate : ℚ)
    (d1 d2 : ℤ) (sh : Shift)
    (h : ¬ (u ∈ sh.assigned_employees ∧ sh.approved = true ∧
      d1 ≤ sh.date ∧ sh.date ≤ d2)) :
    shiftContribution u rate d1 d2 sh = some (0, 0, []) := by
  unfold shiftContribution
  rw [if_neg h]

/-- C5: payroll counts exactly the shifts where the user is among the
assigned employees, `approved` is true and the date is in the inclusive
range; an unapproved shift contributes nothing regardless of status; a
counted regular shift contributes hours computed from actual start/end
when present (else planned) and pay equal to hours times the hourly rate. -/
theorem C5_payroll_selection (u : String) (rate : ℚ) (d1 d2 : ℤ) (sh : Shift) :
    (sh.approved = false → shiftContribution u rate d1 d2 sh = some (0, 0, [])) ∧
    (¬ (u ∈ sh.assigned_employees ∧ sh.approved = true ∧ d1 ≤ sh.date ∧ sh.date ≤ d2) →
      shiftContribution u rate d1 d2 sh = some (0, 0, [])) ∧
    (∀ s e, (u ∈ sh.assigned_employees ∧ sh.approved = true ∧ d1 ≤ sh.date ∧ sh.date ≤ d2) →
      sh.shift_type ≠ "manual_payroll" →
      resolveTime sh.actual_start sh.planned_start = some s →
      resolveTime sh.actual_end sh.planned_end = some e →
      shiftContribution u rate d1 d2 sh =
        some (get_shift_duration s e, get_shift_duration s e * rate,
          [⟨sh.date, LineDetail.regular sh.planned_start sh.planned_end
              sh.actual_start sh.actual_end (get_shift_duration s e),
            get_shift_duration s e * rate⟩])) := by
  refine ⟨?_, ?_, ?_⟩
  · intro h
    unfold shiftContribution
    rw [if_neg (by simp [h])]
  · intro h
    exact shiftContribution_not_qualifying u rate d1 d2 sh h
  · intro s e hq hreg hrs hre
    unfold shiftContribution calculate_pay
    rw [if_pos hq, if_pos hq.2.1, if_neg (by simp [hreg]), hrs, hre]
    simp [hreg]

/-- C5 witness: at the concrete approved 8-hour shift the contribution is
8 hours and 160 pay at rate 20, and at the concrete unapproved pending
shift the contribution is zero. -/
theorem C5_payroll_selection_witness :
    shiftContribution "w" 20 0 10 regShiftW =
      some (8, 160,
        [⟨5, LineDetail.regular ⟨6, 0⟩ ⟨14, 0⟩ (some (some ⟨6, 0⟩))
            (some (some ⟨14, 0⟩)) 8, 160⟩]) ∧
    shiftContribution "w" 20 0 10 pendingShiftW = some (0, 0, []) := by
  have hdur : get_shift_duration ⟨6, 0⟩ ⟨14, 0⟩ = 8 := by
    unfold get_shift_duration TimeOfDay.toMinutes
    norm_num
  constructor
  · have h := (C5_payroll_selection "w" 20 0 10 regShiftW).2.2 ⟨6, 0⟩ ⟨14, 0⟩
      (by decide) (by decide) rfl rfl
    rw [hdur] at h
    norm_num at h
    exact h
  · exact (C5_payroll_selection "w" 20 0 10 pendingShiftW).1 rfl

theorem shiftContribution_manual (u : String) (rate : ℚ) (d1 d2 : ℤ)
    (sh : Shift) (a : ℚ)
    (hman : sh.shift_type = "manual_payroll") (hamt : sh.manual_amount = some a)
    (hq : u ∈ sh.assigned_employees ∧ sh.approved = true ∧
      d1 ≤ sh.date ∧ sh.date ≤ d2) :
    shiftContribution u rate d1 d2 sh =
      some (0, a,
        [⟨sh.date, LineDetail.manualEntry (sh.description.getD "Manual Adjustment"), a⟩]) := by
  unfold shiftContribution calculate_pay
  rw [if_pos hq, if_pos hq.2.1, if_pos ⟨hman, by rw [hamt]; rfl⟩, hamt]
  simp [hman]

theorem payroll_all_manual (u : String) (rate : ℚ) (d1 d2 : ℤ) :
    ∀ shifts : List Shift,
      (∀ t ∈ shifts, t.shift_type = "manual_payroll" ∧ t.manual_amount.isSome = true) →
      ∃ items, calculate_payroll_for_user u rate d1 d2 shifts =
        some (0, manualTotal u d1 d2 shifts, items) := by
  intro shifts
  induction shifts with
  | nil =>
    intro _
    exact ⟨[], by unfold calculate_payroll_for_user manualTotal; simp⟩
  | cons t rest ih =>
    intro hall
    obtain ⟨hman, hamt⟩ := hall t (List.mem_cons_self t rest)
    obtain ⟨items, hitems⟩ := ih (fun x hx => hall x (List.mem_cons_of_mem t hx))
    obtain ⟨a, ha⟩ := Option.isSome_iff_exists.mp hamt
    by_cases hq : u ∈ t.assigned_employees ∧ t.approved = true ∧
        d1 ≤ t.date ∧ t.date ≤ d2
    · refine ⟨⟨t.date, LineDetail.manualEntry (t.description.getD "Manual Adjustment"), a⟩ :: items, ?_⟩
      unfold calculate_payroll_for_user
      rw [shiftContribution_manual u rate d1 d2 t a hman ha hq, hitems]
      have htot : manualTotal u d1 d2 (t :: rest) = a + manualTotal u d1 d2 rest := by
        unfold manualTotal
        rw [List.filter_cons, if_pos (by simpa using hq)]
        simp [ha]
      rw [htot]
      norm_num
    · refine ⟨items, ?_⟩
      unfold calculate_payroll_for_user
      rw [shiftContribution_not_qualifying u rate d1 d2 t hq, hitems]
      have htot : manualTotal u d1 d2 (t :: rest) = manualTotal u d1 d2 rest := by
        unfold manualTotal
        rw [List.filter_cons, if_neg (by simpa using hq)]
      rw [htot]
      norm_num

/-- C6: a qualifying manual payroll entry contributes 0 hours and its fixed
amount verbatim, with a line item carrying the description (default
"Manual Adjustment") instead of a time range; the hourly rate is irrelevant
to its contribution; and over a store whose records are all manual entries
the payroll result is 0 total hours and the sum of the qualifying
amounts. -/
theorem C6_manual_payroll (u : String) (rate rate2 : ℚ) (d1 d2 : ℤ)
    (sh : Shift) (shifts : List Shift) (a : ℚ)
    (hman : sh.shift_type = "manual_payroll") (hamt : sh.manual_amount = some a)
    (hq : u ∈ sh.assigned_employees ∧ sh.approved = true ∧
      d1 ≤ sh.date ∧ sh.date ≤ d2)
    (hall : ∀ t ∈ shifts, t.shift_type = "manual_payroll" ∧
      t.manual_amount.isSome = true) :
    shiftContribution u rate d1 d2 sh =
      some (0, a,
        [⟨sh.date, LineDetail.manualEntry (sh.description.getD "Manual Adjustment"), a⟩]) ∧
    shiftContribution u rate d1 d2 sh = shiftContribution u rate2 d1 d2 sh ∧
    ∃ items, calculate_payroll_for_user u rate d1 d2 shifts =
      some (0, manualTotal u d1 d2 shifts, items) := by
  refine ⟨shiftContribution_manual u rate d1 d2 sh a hman hamt hq, ?_,
    payroll_all_manual u rate d1 d2 shifts hall⟩
  rw [shiftContribution_manual u rate d1 d2 sh a hman hamt hq,
      shiftContribution_manual u rate2 d1 d2 sh a hman hamt hq]

/-- C6 witness: the 100 manual entry contributes (0 hours, 100 pay, a
description line item), and payroll over the two manual entries summing
to 350 yields total hours 0 and total pay 350. -/
theorem C6_manual_payroll_witness :
    shiftContribution "w" 20 0 10 manualEntry100 =
      some (0, 100, [⟨3, LineDetail.manualEntry "Bonus", 100⟩]) ∧
    ∃ items, calculate_payroll_for_user "w" 20 0 10 [manualEntry100, manualEntry250] =
      some (0, 350, items) := by
  have h := C6_manual_payroll "w" 20 7 0 10 manualEntry100
    [manualEntry100, manualEntry250] 100 rfl rfl (by decide) (by decide)
  constructor
  · simpa using h.1
  · obtain ⟨items, hi⟩ := h.2.2
    have htot : manualTotal "w" 0 10 [manualEntry100, manualEntry250] = 350 := by
      unfold manualTotal manualEntry100 manualEntry250
      norm_num
    rw [htot] at hi
    exact ⟨items, hi⟩

/-- C10: the actual-to-planned fallback fires only when the actual key is
absent; a present-but-null value makes the time parse fail rather than
fall back, so a qualifying approved regular shift with a null actual time
makes payroll raise; and under the approved-record invariant an approved
shift is either a manual entry with an amount or carries non-null actual
times that parse, so that failure branch is unreachable. -/
theorem C10_null_not_fallback (u : String) (rate : ℚ) (d1 d2 : ℤ) (sh : Shift) :
    (∀ p : TimeOfDay, resolveTime none p = some p) ∧
    (∀ p : TimeOfDay, resolveTime (some none) p = none) ∧
    ((u ∈ sh.assigned_employees ∧ sh.approved = true ∧ d1 ≤ sh.date ∧ sh.date ≤ d2) →
      sh.shift_type ≠ "manual_payroll" →
      (sh.actual_start = some none ∨ sh.actual_end = some none) →
      shiftContribution u rate d1 d2 sh = none) ∧
    (shiftInvariantB sh = true → sh.approved = true →
      (sh.shift_type = "manual_payroll" ∧ sh.manual_amount.isSome = true) ∨
      (∃ ts te, sh.actual_start = some (some ts) ∧ sh.actual_end = some (some te) ∧
        resolveTime sh.actual_start sh.planned_start = some ts ∧
        resolveTime sh.actual_end sh.planned_end = some te)) := by
  refine ⟨fun p => rfl, fun p => rfl, ?_, ?_⟩
  · intro hq hreg hnull
    unfold shiftContribution calculate_pay
    rw [if_pos hq, if_pos hq.2.1, if_neg (by simp [hreg])]
    rcases hnull with hn | hn
    · rw [hn]
      simp [resolveTime]
    · rw [hn]
      cases hrs : resolveTime sh.actual_start sh.planned_start <;>
        simp [resolveTime]
  · intro hinv happ
    unfold shiftInvariantB at hinv
    rw [happ] at hinv
    simp only [Bool.not_true, Bool.false_or, Bool.or_eq_true,
      Bool.and_eq_true, beq_iff_eq] at hinv
    rcases hinv with ⟨h1, h2⟩ | h
    · right
      have hs1 : ∃ ts, sh.actual_start = some (some ts) := by
        cases has : sh.actual_start with
        | none => rw [has] at h1; simp [isNonNull] at h1
        | some o =>
          cases o with
          | none => rw [has] at h1; simp [isNonNull] at h1
          | some ts => exact ⟨ts, rfl⟩
      have hs2 : ∃ te, sh.actual_end = some (some te) := by
        cases hae : sh.actual_end with
        | none => rw [hae] at h2; simp [isNonNull] at h2
        | some o =>
          cases o with
          | none => rw [hae] at h2; simp [isNonNull] at h2
          | some te => exact ⟨te, rfl⟩
      obtain ⟨ts, hts⟩ := hs1
      obtain ⟨te, hte⟩ := hs2
      exact ⟨ts, te, hts, hte, by rw [hts]; rfl, by rw [hte]; rfl⟩
    · left
      exact h

/-- C10 witness: the qualifying approved shift with null actual times makes
payroll fail, and the invariant-respecting approved shift resolves its
actual times without any fallback. -/
theorem C10_null_not_fallback_witness :
    shiftContribution "w" 20 0 10 nullActualShiftW = none ∧
    ((regShiftW.shift_type = "manual_payroll" ∧ regShiftW.manual_amount.isSome = true) ∨
      (∃ ts te, regShiftW.actual_start = some (some ts) ∧
        regShiftW.actual_end = some (some te) ∧
        resolveTime regShiftW.actual_start regShiftW.planned_start = some ts ∧
        resolveTime regShiftW.actual_end regShiftW.planned_end = some te)) := by
  constructor
  · exact (C10_null_not_fallback "w" 20 0 10 nullActualShiftW).2.2.1
      (by decide) (by decide) (Or.inl rfl)
  · exact (C10_null_not_fallback "w" 20 0 10 regShiftW).2.2.2 (by decide) rfl

theorem modifyAt_pres (f : Shift → Shift)
    (hf : ∀ sh, shiftInvariantB sh = true → shiftInvariantB (f sh) = true) :
    ∀ (store : List Shift) (i : Nat),
      (∀ sh ∈ store, shiftInvariantB sh = true) →
      ∀ sh ∈ modifyAt f store i, shiftInvariantB sh = true := by
  intro store
  induction store with
  | nil =>
    intro i _ sh hsh
    simp [modifyAt] at hsh
  | cons x rest ih =>
    intro i hall sh hsh
    cases i with
    | zero =>
      simp only [modifyAt, List.mem_cons] at hsh
      rcases hsh with h | h
      · exact h ▸ hf x (hall x (List.mem_cons_self x rest))
      · exact hall sh (List.mem_cons_of_mem x h)
    | succ n =>
      simp only [modifyAt, List.mem_cons] at hsh
      rcases hsh with h | h
      · exact h ▸ hall x (List.mem_cons_self x rest)
      · exact ih n (fun t ht => hall t (List.mem_cons_of_mem x ht)) sh h

theorem respondAction_pres (emp : String) (accept : Bool) (sh : Shift)
    (h : shiftInvariantB sh = true) :
    shiftInvariantB (respondAction emp accept sh) = true := by
  unfold respondAction
  split
  · unfold shiftInvariantB at h ⊢
    simpa using h
  · exact h

theorem approveAction_pres (aS aE : TimeOfDay) (sh : Shift)
    (h : shiftInvariantB sh = true) :
    shiftInvariantB (approveAction aS aE sh) = true := by
  unfold approveAction
  split
  · unfold shiftInvariantB isNonNull
    simp
  · exact h

/-- C7: every shift record in a store reachable through the application's
operations satisfies the approved-record invariant: approved implies
non-null actual start and end, or (for manual entries) a non-null amount.
Creation with initial status approved copies planned into actual times,
approval stores actual times, manual entries store an amount with
`approved = true`, and accept/decline change only the status field. -/
theorem C7_approved_invariant (store : List Shift) (h : Reachable store) :
    ∀ sh ∈ store, shiftInvariantB sh = true := by
  induction h with
  | empty => simp
  | create date stype ps pe emps admin initStatus _ heq ih =>
    rename_i store store'
    unfold admin_create_shift at heq
    split at heq
    · cases heq
    · split at heq
      · cases heq
      · simp only [Except.ok.injEq] at heq
        subst heq
        intro sh hsh
        rcases List.mem_append.mp hsh with hm | hm
        · exact ih sh hm
        · simp only [List.mem_singleton] at hm
          subst hm
          by_cases hap : initStatus = ShiftStatus.approved <;>
            simp [shiftInvariantB, isNonNull, createdShift, hap]
  | respond i emp accept _ ih =>
    exact modifyAt_pres (respondAction emp accept)
      (respondAction_pres emp accept) _ i ih
  | approve i aS aE _ ih =>
    exact modifyAt_pres (approveAction aS aE) (approveAction_pres aS aE) _ i ih
  | manual date emp admin amount descr _ ih =>
    unfold manual_add_payroll_entry
    split
    · exact ih
    · intro sh hsh
      rcases List.mem_append.mp hsh with hm | hm
      · exact ih sh hm
      · simp only [List.mem_singleton] at hm
        subst hm
        simp [shiftInvariantB, isNonNull]

theorem admin_create_shift_cases (store : List Shift) (date : ℤ) (stype : String)
    (ps pe : TimeOfDay) (emps : List String) (admin : Option String)
    (initStatus : ShiftStatus) :
    (emps.isEmpty = true →
      admin_create_shift store date stype ps pe emps admin initStatus =
        Except.error CreateError.noEmployees) ∧
    (emps.isEmpty = false →
      (emps.filter (fun u =>
        ! restSatisfied u store (date * 1440 + (ps.toMinutes : ℤ)))).isEmpty = false →
      admin_create_shift store date stype ps pe emps admin initStatus =
        Except.error (CreateError.restViolation (emps.filter (fun u =>
          ! restSatisfied u store (date * 1440 + (ps.toMinutes : ℤ)))))) ∧
    (emps.isEmpty = false →
      (emps.filter (fun u =>
        ! restSatisfied u store (date * 1440 + (ps.toMinutes : ℤ)))).isEmpty = true →
      admin_create_shift store date stype ps pe emps admin initStatus =
        Except.ok (store ++ [createdShift date stype ps pe emps admin initStatus])) := by
  refine ⟨?_, ?_, ?_⟩
  · intro h1
    unfold admin_create_shift
    rw [if_pos h1]
  · intro h1 h2
    unfold admin_create_shift
    rw [if_neg (by rw [h1]; exact Bool.false_ne_true), if_pos (by rw [h2]; rfl)]
  · intro h1 h2
    unfold admin_create_shift
    rw [if_neg (by rw [h1]; exact Bool.false_ne_true),
        if_neg (by rw [h2]; simp)]

/-- C7 witness: the store reached from the empty store by creating one
directly-approved morning shift satisfies the invariant at its record. -/
theorem C7_approved_invariant_witness :
    shiftInvariantB (createdShift 0 "morning" ⟨6, 0⟩ ⟨14, 0⟩ ["e"] none
      ShiftStatus.approved) = true :=
  C7_approved_invariant _
    (Reachable.create 0 "morning" ⟨6, 0⟩ ⟨14, 0⟩ ["e"] none ShiftStatus.approved
      Reachable.empty rfl)
    _ (by simp)

/-- C8: shift creation is refused, producing no store, when the set of
assigned employees is empty or some assigned employee fails the 12-hour
rest check at the proposed planned start instant; a new store is only ever
produced by appending exactly one new record to the unchanged existing
store. -/
theorem C8_create_refusal (store : List Shift) (date : ℤ) (stype : String)
    (ps pe : TimeOfDay) (emps : List String) (admin : Option String)
    (initStatus : ShiftStatus) :
    (emps = [] →
      admin_create_shift store date stype ps pe emps admin initStatus =
        Except.error CreateError.noEmployees) ∧
    ((∃ e ∈ emps, restSatisfied e store (date * 1440 + (ps.toMinutes : ℤ)) = false) →
      ∃ vs, vs ≠ [] ∧
        admin_create_shift store date stype ps pe emps admin initStatus =
          Except.error (CreateError.restViolation vs)) ∧
    (∀ store', admin_create_shift store date stype ps pe emps admin initStatus =
        Except.ok store' →
      store' = store ++ [createdShift date stype ps pe emps admin initStatus]) := by
  obtain ⟨hc1, hc2, hc3⟩ :=
    admin_create_shift_cases store date stype ps pe emps admin initStatus
  refine ⟨?_, ?_, ?_⟩
  · intro h
    subst h
    exact hc1 rfl
  · rintro ⟨e, he, hrest⟩
    have hne : emps.isEmpty = false := by
      cases emps with
      | nil => cases he
      | cons a l => rfl
    have hmem : e ∈ emps.filter (fun u =>
        ! restSatisfied u store (date * 1440 + (ps.toMinutes : ℤ))) := by
      rw [List.mem_filter]
      exact ⟨he, by rw [hrest]; rfl⟩
    have hviol : (emps.filter (fun u =>
        ! restSatisfied u store (date * 1440 + (ps.toMinutes : ℤ)))).isEmpty = false := by
      rcases hfe : emps.filter (fun u =>
          ! restSatisfied u store (date * 1440 + (ps.toMinutes : ℤ))) with _ | ⟨a, l⟩
      · rw [hfe] at hmem
        cases hmem
      · rfl
    refine ⟨_, ?_, hc2 hne hviol⟩
    intro hnil
    rw [hnil] at hviol
    simp at hviol
  · intro store' h
    unfold admin_create_shift at h
    by_cases h1 : emps.isEmpty = true
    · rw [if_pos h1] at h
      cases h
    · rw [if_neg h1] at h
      by_cases h2 : (! (emps.filter (fun u =>
          ! restSatisfied u store (date * 1440 + (ps.toMinutes : ℤ)))).isEmpty) = true
      · rw [if_pos h2] at h
        cases h
      · rw [if_neg h2] at h
        injection h with h3
        exact h3.symm

/-- C8 witness: with no assigned employees creation is refused, and with
employee "e" whose latest prior shift truly ends at day 1 06:00, creation
at day 1 14:00 (an 8-hour gap) is refused with a rest violation. -/
theorem C8_create_refusal_witness :
    admin_create_shift [nightShiftOn ShiftStatus.approved] 1 "late" ⟨14, 0⟩ ⟨22, 0⟩
      [] none ShiftStatus.pending = Except.error CreateError.noEmployees ∧
    ∃ vs, vs ≠ [] ∧
      admin_create_shift [nightShiftOn ShiftStatus.approved] 1 "late" ⟨14, 0⟩ ⟨22, 0⟩
        ["e"] none ShiftStatus.pending =
        Except.error (CreateError.restViolation vs) := by
  constructor
  · exact (C8_create_refusal [nightShiftOn ShiftStatus.approved] 1 "late"
      ⟨14, 0⟩ ⟨22, 0⟩ [] none ShiftStatus.pending).1 rfl
  · exact (C8_create_refusal [nightShiftOn ShiftStatus.approved] 1 "late"
      ⟨14, 0⟩ ⟨22, 0⟩ ["e"] none ShiftStatus.pending).2.1
      ⟨"e", by simp, by decide⟩

/-- C1, evaluated at the failing input: for two selected employees with
disjoint qualified sets the code offers the union of the sets (so "late"
is selectable even though the first employee is not qualified for it)
while the spec-side intersection is empty, and creation of the shift then
succeeds, appending a record — there is no NoCompatibleShiftType refusal
anywhere in the code path. -/
theorem C1_union_instead_of_intersection :
    available_shift_types [empMorning, empLate] = {"morning", "late"} ∧
    spec_allowed_shift_types [empMorning, empLate] = ∅ ∧
    "late" ∈ available_shift_types [empMorning, empLate] ∧
    "late" ∉ allowedShiftSet empMorning ∧
    admin_create_shift [] 0 "late" ⟨14, 0⟩ ⟨22, 0⟩ ["empA", "empB"] none
      ShiftStatus.pending =
      Except.ok [createdShift 0 "late" ⟨14, 0⟩ ⟨22, 0⟩ ["empA", "empB"] none
        ShiftStatus.pending] :=
  ⟨by decide, by decide, by decide, by decide, rfl⟩

